import Mathlib

/-!
Verification of the cartomata rendering pipeline core.

Shallow embedding of the Rust sources:
  src/pipeline/parallel.rs  (CardQueue, Worker, PipelineJoinHandle, ParallelismOptions)
  src/pipeline.rs           (CardQueue, Worker, producer loop, check_n_workers)
  src/layer.rs              (LayerStack::render)
  src/data/value.rs         (Value, impl PartialEq for Value)

Machine integers: Rust `usize` indices are modelled as `Nat`, `i64` as `Int`
with the i64 range checked explicitly where the source checks it (string
parsing).  Rust `f64` payloads are modelled as exact rationals `ℚ`; the
decimal-literal parser computes the exact decimal value (no rounding step)
and non-finite values (inf/nan) are outside the model, which is exact on all
values the claims evaluate.
-/

namespace Cartomata

/-! ## CardQueue (src/pipeline/parallel.rs lines 178-232)

```rust
struct CardQueueState<C: Card> { queue: VecDeque<(usize, C)>, done: bool }
```
The deque holds `(index, card)` pairs; `push` appends at the back after
waiting while `len() >= capacity`; `pop` waits while `empty && !done`, then
removes the front (`pop_front`, which yields `None` on an empty deque);
`done` sets the flag and wakes everyone.  Lock poisoning is the only error
path in the source and is not modelled: every completed call succeeds. -/

structure CardQueueState (C : Type) where
  queue : List (Nat × C)
  done : Bool
deriving DecidableEq, Repr

/-- Initial queue state built by `CardQueueState::new`: empty deque, `done = false`. -/
def CardQueueState.init (C : Type) : CardQueueState C :=
  { queue := [], done := false }

/-- State change performed by `CardQueue::push` once the wait
`wait_while(|s| s.queue.len() >= self.capacity)` has ended:
`state.queue.push_back((index, card))`. -/
def CardQueueState.pushFn (s : CardQueueState C) (i : Nat) (c : C) : CardQueueState C :=
  { s with queue := s.queue ++ [(i, c)] }

/-- Effect of `CardQueue::pop` once the wait
`wait_while(|s| s.queue.is_empty() && !s.done)` has ended:
`state.queue.pop_front()` returns the head (or `None` on empty) and the
state keeps the tail. -/
def CardQueueState.popFn (s : CardQueueState C) : Option (Nat × C) × CardQueueState C :=
  match s.queue with
  | [] => (none, s)
  | x :: rest => (some x, { s with queue := rest })

/-- State change performed by `CardQueue::done`: `state.done = true`. -/
def CardQueueState.doneFn (s : CardQueueState C) : CardQueueState C :=
  { s with done := true }

/-- The producer blocks in `push` exactly while `s.queue.len() >= capacity`. -/
def CardQueueState.pushBlocked (s : CardQueueState C) (capacity : Nat) : Bool :=
  decide (capacity ≤ s.queue.length)

/-- A consumer blocks in `pop` exactly while `s.queue.is_empty() && !s.done`. -/
def CardQueueState.popBlocked (s : CardQueueState C) : Bool :=
  s.queue.isEmpty && !s.done

/-- One observable completed queue operation, as seen by the thread that
performed it. -/
inductive QEvent (C : Type) where
  | pushed (i : Nat) (c : C)
  | popped (r : Option (Nat × C))
  | markedDone
deriving DecidableEq, Repr

/-- Small-step semantics of the queue under any interleaving of threads.
A step is a completed `push`, `pop` or `done` call: the mutex serialises
the calls, and a call completes only when its `wait_while` guard is false. -/
inductive QStep (capacity : Nat) :
    CardQueueState C → QEvent C → CardQueueState C → Prop where
  | push {s : CardQueueState C} {i : Nat} {c : C}
      (hroom : s.queue.length < capacity) :
      QStep capacity s (.pushed i c) (s.pushFn i c)
  | pop {s : CardQueueState C}
      (hready : s.queue = [] → s.done = true) :
      QStep capacity s (.popped s.popFn.1) s.popFn.2
  | markDone {s : CardQueueState C} :
      QStep capacity s .markedDone s.doneFn

/-- A trace: a sequence of completed queue operations from one state to
another. -/
inductive QTrace (capacity : Nat) :
    CardQueueState C → List (QEvent C) → CardQueueState C → Prop where
  | nil {s : CardQueueState C} : QTrace capacity s [] s
  | cons {s s' s'' : CardQueueState C} {e : QEvent C} {es : List (QEvent C)}
      (hstep : QStep capacity s e s') (htail : QTrace capacity s' es s'') :
      QTrace capacity s (e :: es) s''

/-- The (index, card) pairs pushed in a trace, in push order. -/
def pushedItems (es : List (QEvent C)) : List (Nat × C) :=
  es.filterMap fun e =>
    match e with
    | .pushed i c => some (i, c)
    | _ => none

/-- The (index, card) pairs returned by successful pops in a trace, in pop
order. -/
def poppedItems (es : List (QEvent C)) : List (Nat × C) :=
  es.filterMap fun e =>
    match e with
    | .popped (some x) => some x
    | _ => none

lemma qstep_items_eq {capacity : Nat} {s s' : CardQueueState C} {e : QEvent C}
    (h : QStep capacity s e s') :
    s.queue ++ pushedItems [e] = poppedItems [e] ++ s'.queue := by
  cases h with
  | push hroom =>
      simp [pushedItems, poppedItems, CardQueueState.pushFn]
  | pop hready =>
      obtain ⟨q, d⟩ := s
      cases q with
      | nil =>
          simp [pushedItems, poppedItems, CardQueueState.popFn]
      | cons x rest =>
          simp [pushedItems, poppedItems, CardQueueState.popFn]
  | markDone =>
      simp [pushedItems, poppedItems, CardQueueState.doneFn]

lemma qtrace_items_eq {capacity : Nat} {s s' : CardQueueState C}
    {es : List (QEvent C)} (h : QTrace capacity s es s') :
    s.queue ++ pushedItems es = poppedItems es ++ s'.queue := by
  induction h with
  | nil => simp [pushedItems, poppedItems]
  | cons hstep htail ih =>
      rename_i s₀ s₁ s₂ e es'
      have h1 := qstep_items_eq hstep
      have hpush : pushedItems (e :: es') = pushedItems [e] ++ pushedItems es' := by
        cases e with
        | pushed i c => simp [pushedItems]
        | popped r => simp [pushedItems]
        | markedDone => simp [pushedItems]
      have hpop : poppedItems (e :: es') = poppedItems [e] ++ poppedItems es' := by
        cases e with
        | pushed i c => simp [poppedItems]
        | popped r => cases r <;> simp [poppedItems]
        | markedDone => simp [poppedItems]
      calc s₀.queue ++ pushedItems (e :: es')
          = (s₀.queue ++ pushedItems [e]) ++ pushedItems es' := by
            rw [hpush, List.append_assoc]
        _ = (poppedItems [e] ++ s₁.queue) ++ pushedItems es' := by rw [h1]
        _ = poppedItems [e] ++ (s₁.queue ++ pushedItems es') := by
            rw [List.append_assoc]
        _ = poppedItems [e] ++ (poppedItems es' ++ s₂.queue) := by rw [ih]
        _ = poppedItems (e :: es') ++ s₂.queue := by
            rw [hpop, List.append_assoc]

lemma qstep_length_le {capacity : Nat} {s s' : CardQueueState C} {e : QEvent C}
    (h : QStep capacity s e s') (hs : s.queue.length ≤ capacity) :
    s'.queue.length ≤ capacity := by
  cases h with
  | push hroom =>
      simpa [CardQueueState.pushFn] using hroom
  | pop hready =>
      obtain ⟨q, d⟩ := s
      cases q with
      | nil => simp [CardQueueState.popFn]
      | cons x rest =>
          have hr : rest.length + 1 ≤ capacity := by simpa using hs
          simp only [CardQueueState.popFn]
          simp only [List.length_cons] at hr ⊢
          omega
  | markDone => simpa [CardQueueState.doneFn] using hs

lemma qtrace_length_le {capacity : Nat} {s s' : CardQueueState C}
    {es : List (QEvent C)} (h : QTrace capacity s es s')
    (hs : s.queue.length ≤ capacity) : s'.queue.length ≤ capacity := by
  induction h with
  | nil => exact hs
  | cons hstep htail ih => exact ih (qstep_length_le hstep hs)

lemma qstep_done_mono {capacity : Nat} {s s' : CardQueueState C} {e : QEvent C}
    (h : QStep capacity s e s') (hd : s.done = true) : s'.done = true := by
  cases h with
  | push hroom => simpa [CardQueueState.pushFn] using hd
  | pop hready =>
      obtain ⟨q, d⟩ := s
      cases q with
      | nil => simpa [CardQueueState.popFn] using hd
      | cons x rest => simpa [CardQueueState.popFn] using hd
  | markDone => simp [CardQueueState.doneFn]

lemma qtrace_done_mono {capacity : Nat} {s s' : CardQueueState C}
    {es : List (QEvent C)} (h : QTrace capacity s es s') (hd : s.done = true) :
    s'.done = true := by
  induction h with
  | nil => exact hd
  | cons hstep htail ih => exact ih (qstep_done_mono hstep hd)

/-- C1: every (index, card) pair pushed into a CardQueue is returned by
exactly one successful pop, in push order (push appends at the tail, pop
removes the head): along any trace of completed operations from the initial
state, the pushed pairs equal the popped pairs followed by the pairs still
queued, so the popped sequence is an initial segment of the pushed sequence,
nothing is duplicated or lost, and once the queue drains the popped sequence
equals the pushed sequence exactly. -/
theorem claim_C1_queue_fifo_exactly_once {C : Type} (capacity : Nat)
    (es : List (QEvent C)) (s : CardQueueState C)
    (h : QTrace capacity (CardQueueState.init C) es s) :
    pushedItems es = poppedItems es ++ s.queue ∧
    (s.queue = [] → poppedItems es = pushedItems es) := by
  have hq := qtrace_items_eq h
  simp only [CardQueueState.init, List.nil_append] at hq
  refine ⟨hq, ?_⟩
  intro hempty
  rw [hq, hempty, List.append_nil]

/-- Sample six-operation trace used to witness the queue claims:
two pushes, a pop, mark-done, a pop, and a final empty pop. -/
def qEvExample : List (QEvent Nat) :=
  [.pushed 0 7, .pushed 1 8, .popped (some (0, 7)), .markedDone,
   .popped (some (1, 8)), .popped none]

/-- Final state of the sample trace: drained queue, done flag set. -/
def qStExample : CardQueueState Nat := { queue := [], done := true }

lemma qTraceExample : QTrace 2 (CardQueueState.init Nat) qEvExample qStExample :=
  QTrace.cons (QStep.push (by decide))
    (QTrace.cons (QStep.push (by decide))
      (QTrace.cons (QStep.pop (by decide))
        (QTrace.cons QStep.markDone
          (QTrace.cons (QStep.pop (by decide))
            (QTrace.cons (QStep.pop (by decide)) QTrace.nil)))))

theorem claim_C1_queue_fifo_exactly_once_witness :
    pushedItems qEvExample = poppedItems qEvExample ++ qStExample.queue ∧
    (qStExample.queue = [] → poppedItems qEvExample = pushedItems qEvExample) :=
  claim_C1_queue_fifo_exactly_once 2 qEvExample qStExample qTraceExample

/-- C3: at every reachable state of a CardQueue the length never exceeds the
capacity fixed at construction; a push completes only from a state whose
length is strictly below capacity and then appends exactly the given item
(push has no failure outcome in the model: lock poisoning is the sole error
path in the source), and whenever the length is below capacity the push is
enabled and succeeds. -/
theorem claim_C3_capacity_invariant {C : Type} (capacity : Nat)
    (es : List (QEvent C)) (s : CardQueueState C)
    (h : QTrace capacity (CardQueueState.init C) es s) :
    s.queue.length ≤ capacity ∧
    (∀ s₀ s₁ : CardQueueState C, ∀ i : Nat, ∀ c : C,
      QStep capacity s₀ (.pushed i c) s₁ →
        s₀.queue.length < capacity ∧ s₁ = s₀.pushFn i c) ∧
    (∀ s₀ : CardQueueState C, ∀ i : Nat, ∀ c : C, s₀.queue.length < capacity →
      QStep capacity s₀ (.pushed i c) (s₀.pushFn i c)) := by
  refine ⟨?_, ?_, ?_⟩
  · exact qtrace_length_le h (by simp [CardQueueState.init])
  · intro s₀ s₁ i c hstep
    cases hstep with
    | push hroom => exact ⟨hroom, rfl⟩
  · intro s₀ i c hroom
    exact QStep.push hroom

/-- Sample one-push trace with capacity 1, used to witness C3. -/
def qEvExampleC3 : List (QEvent Nat) := [.pushed 0 5]

/-- Final state of the one-push trace. -/
def qStExampleC3 : CardQueueState Nat := { queue := [(0, 5)], done := false }

lemma qTraceExampleC3 : QTrace 1 (CardQueueState.init Nat) qEvExampleC3 qStExampleC3 :=
  QTrace.cons (QStep.push (by decide)) QTrace.nil

theorem claim_C3_capacity_invariant_witness :
    qStExampleC3.queue.length ≤ 1 ∧
    (∀ s₀ s₁ : CardQueueState Nat, ∀ i : Nat, ∀ c : Nat,
      QStep 1 s₀ (.pushed i c) s₁ →
        s₀.queue.length < 1 ∧ s₁ = s₀.pushFn i c) ∧
    (∀ s₀ : CardQueueState Nat, ∀ i : Nat, ∀ c : Nat, s₀.queue.length < 1 →
      QStep 1 s₀ (.pushed i c) (s₀.pushFn i c)) :=
  claim_C3_capacity_invariant 1 qEvExampleC3 qStExampleC3 qTraceExampleC3

/-- C4: once the done flag of a CardQueue is set it stays set along every
later trace of operations; marking done is idempotent (a second `done()`
leaves the state unchanged); and in any done state a consumer is never
blocked in `pop` — on an empty done queue, `pop` returns `Ok(None)` and
leaves the state unchanged, for every caller. -/
theorem claim_C4_done_semantics {C : Type} (capacity : Nat)
    (es : List (QEvent C)) (s s' : CardQueueState C)
    (hd : s.done = true) (h : QTrace capacity s es s') :
    s'.done = true ∧
    (∀ t : CardQueueState C, t.doneFn.doneFn = t.doneFn ∧ t.doneFn.done = true) ∧
    (∀ t : CardQueueState C, t.done = true →
      t.popBlocked = false ∧
      (t.queue = [] → t.popFn = (none, t) ∧ QStep capacity t (.popped none) t)) := by
  refine ⟨qtrace_done_mono h hd, ?_, ?_⟩
  · intro t
    exact ⟨rfl, rfl⟩
  · intro t htd
    constructor
    · simp [CardQueueState.popBlocked, htd]
    · intro htq
      obtain ⟨q, d⟩ := t
      simp only at htq
      subst htq
      refine ⟨rfl, ?_⟩
      exact QStep.pop (fun _ => htd)

/-- Trace used to witness C4: one pop from an empty, already-done queue. -/
def qStExampleC4 : CardQueueState Nat := { queue := [], done := true }

lemma qTraceExampleC4 : QTrace 1 qStExampleC4 [.popped none] qStExampleC4 :=
  QTrace.cons (QStep.pop (by decide)) QTrace.nil

theorem claim_C4_done_semantics_witness :
    qStExampleC4.done = true ∧
    (∀ t : CardQueueState Nat, t.doneFn.doneFn = t.doneFn ∧ t.doneFn.done = true) ∧
    (∀ t : CardQueueState Nat, t.done = true →
      t.popBlocked = false ∧
      (t.queue = [] → t.popFn = (none, t) ∧ QStep 1 t (.popped none) t)) :=
  claim_C4_done_semantics 1 [.popped none] qStExampleC4 qStExampleC4 rfl
    qTraceExampleC4

/-! ## Worker (src/pipeline/parallel.rs lines 234-266)

`Worker::run` builds a render context and a decoder, then loops:
`while let Some((i, card)) = self.queue.pop()?`, emits `on_iter_start`, runs
`self.process(&decoder, &card, &ctx)` and emits `on_iter_ok` or
`on_iter_err` accordingly; after the loop it returns `Ok(())`.
`Worker::process` is `decode(card)? |> render(ctx)? |> output(...)?`.
The sequence of items the worker receives from its pops is the loop input;
visitor callbacks return `()` and cannot fail.  Lock poisoning (the `?` on
`pop`) is the only non-modelled exit. -/

/-- Events a worker emits through the visitor, one `iterStart` plus exactly
one of `iterOk`/`iterErr` per popped item. -/
inductive WEvent (C E : Type) where
  | iterStart (worker index : Nat)
  | iterOk (worker index : Nat) (card : C)
  | iterErr (worker index : Nat) (card : C) (err : E)
deriving DecidableEq, Repr

/-- `Worker::process`: decode the card, render the layer stack, write the
output; the first failing stage aborts with its error (each `?` in the
source is an early return of the `Err`). -/
def Worker.process {C L I E : Type} (decode : C → Except E L)
    (render : L → Except E I) (output : C → I → Except E Unit)
    (card : C) : Except E Unit :=
  match decode card with
  | .error e => .error e
  | .ok layers =>
      match render layers with
      | .error e => .error e
      | .ok img => output card img

/-- The worker loop body over the sequence of items its pops return:
per item, `iterStart` then `iterOk` on success or `iterErr` (carrying the
index, card and error) on failure, then the next iteration. -/
def Worker.runLoop {C E : Type} (id : Nat) (proc : C → Except E Unit) :
    List (Nat × C) → List (WEvent C E)
  | [] => []
  | (i, card) :: rest =>
      WEvent.iterStart id i ::
        (match proc card with
          | .ok _ => WEvent.iterOk id i card
          | .error e => WEvent.iterErr id i card e) ::
        Worker.runLoop id proc rest

/-- `Worker::run`: the loop's emitted events paired with the return value,
which is `Ok(())` once `pop` yields `None`. -/
def Worker.run {C E : Type} (id : Nat) (proc : C → Except E Unit)
    (items : List (Nat × C)) : Except E Unit × List (WEvent C E) :=
  (Except.ok (), Worker.runLoop id proc items)

/-- C2: a failure in the per-card decode/render/output sequence yields
exactly one `iterErr` event carrying that card's index and error, the
worker's loop continues with the remaining items, and the per-card error
never becomes the worker's return value: `Worker::run` returns `Ok(())`.
A card's processing fails precisely when its decode fails, or decode
succeeds and render fails, or both succeed and the output write fails. -/
theorem claim_C2_worker_error_isolation {C L I E : Type} (id : Nat)
    (decode : C → Except E L) (render : L → Except E I)
    (output : C → I → Except E Unit)
    (pre post : List (Nat × C)) (i : Nat) (card : C) (e : E)
    (hfail : Worker.process decode render output card = .error e) :
    (Worker.run id (Worker.process decode render output)
        (pre ++ (i, card) :: post)).1 = .ok () ∧
    Worker.runLoop id (Worker.process decode render output)
        (pre ++ (i, card) :: post) =
      Worker.runLoop id (Worker.process decode render output) pre ++
        WEvent.iterStart id i :: WEvent.iterErr id i card e ::
          Worker.runLoop id (Worker.process decode render output) post ∧
    (∀ c : C, ∀ e' : E, Worker.process decode render output c = .error e' ↔
      (decode c = .error e' ∨
       (∃ l, decode c = .ok l ∧ render l = .error e') ∨
       (∃ l img, decode c = .ok l ∧ render l = .ok img ∧
         output c img = .error e'))) := by
  refine ⟨rfl, ?_, ?_⟩
  · induction pre with
    | nil => simp [Worker.runLoop, hfail]
    | cons p rest ih =>
        obtain ⟨j, c⟩ := p
        simp only [List.cons_append, Worker.runLoop, List.append_eq, ih]
  · intro c e'
    unfold Worker.process
    cases hd : decode c with
    | error ed => simp [hd]
    | ok l =>
        cases hr : render l with
        | error er => simp [hd, hr]
        | ok img =>
            cases ho : output c img with
            | error eo => simp [hd, hr, ho]
            | ok u => simp [hd, hr, ho]

/-- Concrete decoder for the C2 witness: card 2 fails to decode with
error 9, every other card decodes to itself. -/
def decodeExample : Nat → Except Nat Nat :=
  fun c => if c = 2 then .error 9 else .ok c

/-- Concrete renderer for the C2 witness: always succeeds. -/
def renderExample : Nat → Except Nat Nat := fun l => .ok l

/-- Concrete output writer for the C2 witness: always succeeds. -/
def outputExample : Nat → Nat → Except Nat Unit := fun _ _ => .ok ()

theorem claim_C2_worker_error_isolation_witness :
    (Worker.run 1 (Worker.process decodeExample renderExample outputExample)
        ([(0, 1)] ++ (1, 2) :: [(2, 3)])).1 = .ok () ∧
    Worker.runLoop 1 (Worker.process decodeExample renderExample outputExample)
        ([(0, 1)] ++ (1, 2) :: [(2, 3)]) =
      Worker.runLoop 1 (Worker.process decodeExample renderExample outputExample)
          [(0, 1)] ++
        WEvent.iterStart 1 1 :: WEvent.iterErr 1 1 2 9 ::
          Worker.runLoop 1 (Worker.process decodeExample renderExample outputExample)
            [(2, 3)] ∧
    (∀ c : Nat, ∀ e' : Nat,
      Worker.process decodeExample renderExample outputExample c = .error e' ↔
      (decodeExample c = .error e' ∨
       (∃ l, decodeExample c = .ok l ∧ renderExample l = .error e') ∨
       (∃ l img, decodeExample c = .ok l ∧ renderExample l = .ok img ∧
         outputExample c img = .error e'))) :=
  claim_C2_worker_error_isolation 1 decodeExample renderExample outputExample
    [(0, 1)] [(2, 3)] 1 2 9 rfl

/-! ## Producer thread (src/pipeline.rs lines 305-322, parallel.rs 88-107)

```rust
let mut total: usize = 0;
for (index, card) in source.read(filter)?.enumerate() {
    total += 1;
    match card {
        Ok(card) => queue.push(index, card)?,
        Err(e) => WorkerMsg::send_iter_read_err(&tx, index, e)?,
    }
}
queue.done()?;
WorkerMsg::send_total(&tx, total)
```
(In parallel.rs the same loop runs over the visitor-filtered result
sequence, pushing via `queue.push(i, card)` and reporting via
`visitor.on_read_err`, then `queue.done()` and `visitor.on_total(total)`.) -/

/-- Events the producer emits: one read-error report per `Err` result and a
final total count. -/
inductive PEvent (E : Type) where
  | readErr (index : Nat) (err : E)
  | total (n : Nat)
deriving DecidableEq, Repr

/-- What the producer produced: the pushed `(index, card)` pairs in order,
the emitted events in order, and whether `queue.done()` was called. -/
structure ProducerOutcome (C E : Type) where
  pushes : List (Nat × C)
  events : List (PEvent E)
  doneCalled : Bool
deriving Repr

/-- The producer's enumeration loop: `index` is the running enumeration
counter, `total` the running count of results read. -/
def producerLoop {C E : Type} (index total : Nat) :
    List (Except E C) → List (Nat × C) × List (PEvent E) × Nat
  | [] => ([], [], total)
  | .ok card :: rest =>
      let r := producerLoop (index + 1) (total + 1) rest
      ((index, card) :: r.1, r.2.1, r.2.2)
  | .error e :: rest =>
      let r := producerLoop (index + 1) (total + 1) rest
      (r.1, PEvent.readErr index e :: r.2.1, r.2.2)

/-- The producer thread body: run the loop over the source's results, then
call `queue.done()` and emit `Total(total)`. -/
def producerRun {C E : Type} (results : List (Except E C)) :
    ProducerOutcome C E :=
  let r := producerLoop 0 0 results
  { pushes := r.1, events := r.2.1 ++ [PEvent.total r.2.2], doneCalled := true }

lemma producerLoop_spec {C E : Type} (rs : List (Except E C)) :
    ∀ index total : Nat,
    (producerLoop index total rs).1 =
      (rs.enumFrom index).filterMap (fun p =>
        match p.2 with | .ok c => some (p.1, c) | .error _ => none) ∧
    (producerLoop index total rs).2.1 =
      (rs.enumFrom index).filterMap (fun p =>
        match p.2 with
        | .ok _ => none
        | .error e => some (PEvent.readErr p.1 e)) ∧
    (producerLoop index total rs).2.2 = total + rs.length := by
  induction rs with
  | nil => intro index total; simp [producerLoop]
  | cons r rest ih =>
      intro index total
      cases r with
      | ok c =>
          have h := ih (index + 1) (total + 1)
          refine ⟨?_, ?_, ?_⟩
          · simp [producerLoop, List.enumFrom, h.1]
          · simp [producerLoop, List.enumFrom, h.2.1]
          · simp [producerLoop, h.2.2]
            omega
      | error e =>
          have h := ih (index + 1) (total + 1)
          refine ⟨?_, ?_, ?_⟩
          · simp [producerLoop, List.enumFrom, h.1]
          · simp [producerLoop, List.enumFrom, h.2.1]
          · simp [producerLoop, h.2.2]
            omega

/-- C6: the producer enumerates the source's results in read order, pushes
each `Ok` card paired with its enumeration index, reports each `Err` result
as a read failure at its index without enqueuing it, calls the queue's
`done()` after exhaustion, and finally emits a `Total` event whose count is
the number of results read, `Ok` and `Err` together. -/
theorem claim_C6_producer_enumeration {C E : Type}
    (results : List (Except E C)) :
    (producerRun results).pushes =
      results.enum.filterMap (fun p =>
        match p.2 with | .ok c => some (p.1, c) | .error _ => none) ∧
    (producerRun results).events =
      results.enum.filterMap (fun p =>
        match p.2 with
        | .ok _ => none
        | .error e => some (PEvent.readErr p.1 e)) ++
      [PEvent.total results.length] ∧
    (producerRun results).doneCalled = true := by
  have h := producerLoop_spec results 0 0
  refine ⟨?_, ?_, rfl⟩
  · simpa [producerRun, List.enum] using h.1
  · have := h.2.2
    simp [producerRun, List.enum, h.2.1, this]

/-! ## PipelineJoinHandle::join (src/pipeline/parallel.rs lines 156-175)

```rust
let (i, handle) = handles.next().expect("at least 1 join handle should exist");
let base_result = handle.join().map_err(|_| Error::thread_join(i))?;
for (i, handle) in handles {
    let _ = handle.join().map_err(|_| Error::thread_join(i))?;
}
...
visitor.on_finish(&template, 0, &base_result);
Ok((template, visitor))
```
A handle outcome is `none` for a panicking thread (its `join()` fails) and
`some r` for a thread that terminated normally returning `r`.  Handle 0 is
the producer; handles 1.. are the workers in spawn order. -/

/-- Outcome of `PipelineJoinHandle::join`: either `Ok`, carrying the
producer's own result (handed to `on_finish` for worker id 0), or the
escalated `Error::thread_join(i)` of the first panicked thread. -/
inductive JoinOutcome (E : Type) where
  | ok (producerResult : Except E Unit)
  | threadJoin (i : Nat)
deriving Repr

/-- The `for` loop over the remaining handles: returns the index of the
first panicked handle, if any; normal results are discarded (`let _ =`). -/
def joinRest {E : Type} (i : Nat) :
    List (Option (Except E Unit)) → Option Nat
  | [] => none
  | none :: _ => some i
  | some _ :: rest => joinRest (i + 1) rest

/-- `PipelineJoinHandle::join`: join the producer handle (index 0) first,
escalating a panic as `thread_join(0)`; then join every worker handle in
spawn order, escalating the first panic as `thread_join(i)`; worker results
are discarded, and on success the producer's result is reported via
`on_finish` and `Ok` is returned. -/
def PipelineJoinHandle.join {E : Type}
    (producerHandle : Option (Except E Unit))
    (workerHandles : List (Option (Except E Unit))) : JoinOutcome E :=
  match producerHandle with
  | none => .threadJoin 0
  | some base =>
      match joinRest 1 workerHandles with
      | some i => .threadJoin i
      | none => .ok base

/-- Worker thread wrapper (run_parallel lines 118-131): the worker body's
result is reported through `visitor.on_finish(template, id, &result)` as an
event before being returned from the thread. -/
def workerThreadFinish {E : Type} (id : Nat) (result : Except E Unit) :
    (Nat × Except E Unit) × Except E Unit :=
  ((id, result), result)

lemma joinRest_eq_none_iff {E : Type} (ws : List (Option (Except E Unit))) :
    ∀ i : Nat, joinRest i ws = none ↔ none ∉ ws := by
  induction ws with
  | nil => intro i; simp [joinRest]
  | cons w rest ih =>
      intro i
      cases w with
      | none => simp [joinRest]
      | some r => simp [joinRest, ih]

lemma joinRest_first {E : Type} (ws : List (Option (Except E Unit))) :
    ∀ i k : Nat, ws.get? k = some none →
    (∀ j : Nat, j < k → ws.get? j ≠ some none) →
    joinRest i ws = some (i + k) := by
  induction ws with
  | nil => intro i k hk _; simp at hk
  | cons w rest ih =>
      intro i k hk hmin
      cases k with
      | zero =>
          simp at hk
          subst hk
          rfl
      | succ k' =>
          have hw : w ≠ none := by
            intro hw
            exact hmin 0 (Nat.succ_pos _) (by simp [hw])
          cases w with
          | none => exact absurd rfl hw
          | some r =>
              have hk' : rest.get? k' = some none := by simpa using hk
              have hmin' : ∀ j : Nat, j < k' → rest.get? j ≠ some none := by
                intro j hj
                have := hmin (j + 1) (Nat.succ_lt_succ hj)
                simpa using this
              have := ih (i + 1) k' hk' hmin'
              simp only [joinRest, this]
              congr 1
              omega

/-- C7: `join` joins the producer handle first and the worker handles in
spawn order; it succeeds exactly when no thread panicked, in which case the
producer's result is carried to the final `on_finish` event; the first
panicked handle, at position k among the workers, is escalated as the fatal
`thread_join(k+1)` error; a producer panic is `thread_join(0)`; a worker
that returns `Err` without panicking has its result reported via
`on_finish` by its own thread, is otherwise discarded by `join`, and
changes neither the joining of the remaining handles nor `join`'s own
outcome. -/
theorem claim_C7_join_escalation {E : Type} (base : Except E Unit)
    (ws : List (Option (Except E Unit))) :
    (PipelineJoinHandle.join (some base) ws = .ok base ↔ none ∉ ws) ∧
    (∀ k : Nat, ws.get? k = some none →
      (∀ j : Nat, j < k → ws.get? j ≠ some none) →
      PipelineJoinHandle.join (some base) ws = .threadJoin (k + 1)) ∧
    (PipelineJoinHandle.join none ws = .threadJoin 0) ∧
    (∀ pre post : List (Option (Except E Unit)), ∀ e : E,
      PipelineJoinHandle.join (some base) (pre ++ some (.error e) :: post) =
        PipelineJoinHandle.join (some base) (pre ++ some (.ok ()) :: post)) ∧
    (∀ id : Nat, ∀ r : Except E Unit, workerThreadFinish id r = ((id, r), r)) := by
  refine ⟨?_, ?_, rfl, ?_, fun _ _ => rfl⟩
  · constructor
    · intro h
      cases hj : joinRest 1 ws with
      | none => exact (joinRest_eq_none_iff ws 1).mp hj
      | some i => simp [PipelineJoinHandle.join, hj] at h
    · intro hmem
      have hj : joinRest 1 ws = none := (joinRest_eq_none_iff ws 1).mpr hmem
      simp [PipelineJoinHandle.join, hj]
  · intro k hk hmin
    have hj := joinRest_first ws 1 k hk hmin
    simp only [PipelineJoinHandle.join, hj]
    congr 1
    omega
  · intro pre post e
    have hr : ∀ i : Nat,
        joinRest i (pre ++ some (Except.error e) :: post) =
        joinRest i (pre ++ some (Except.ok ()) :: post) := by
      induction pre with
      | nil => intro i; simp [joinRest]
      | cons w rest ih =>
          intro i
          cases w with
          | none => simp [joinRest]
          | some r => simp [joinRest, ih]
    simp only [PipelineJoinHandle.join, hr 1]

/-- Concrete handle list for the C7 witness: one worker that returned an
error normally, then one worker that panicked. -/
def joinHandlesExample : List (Option (Except Nat Unit)) :=
  [some (Except.error 4), none]

theorem claim_C7_join_escalation_witness :
    (PipelineJoinHandle.join (some (Except.ok ())) joinHandlesExample
        = JoinOutcome.ok (Except.ok ()) ↔
      none ∉ joinHandlesExample) ∧
    (∀ k : Nat, joinHandlesExample.get? k = some none →
      (∀ j : Nat, j < k → joinHandlesExample.get? j ≠ some none) →
      PipelineJoinHandle.join (some (Except.ok ())) joinHandlesExample
        = JoinOutcome.threadJoin (k + 1)) ∧
    (PipelineJoinHandle.join none joinHandlesExample
        = JoinOutcome.threadJoin 0) ∧
    (∀ pre post : List (Option (Except Nat Unit)), ∀ e : Nat,
      PipelineJoinHandle.join (some (Except.ok ()))
          (pre ++ some (Except.error e) :: post) =
        PipelineJoinHandle.join (some (Except.ok ()))
          (pre ++ some (Except.ok ()) :: post)) ∧
    (∀ id : Nat, ∀ r : Except Nat Unit, workerThreadFinish id r = ((id, r), r)) :=
  claim_C7_join_escalation (Except.ok ()) joinHandlesExample

/-! ## LayerStack::render (src/layer.rs lines 21-41)

```rust
pub fn render(self, template: &Template) -> Result<ImageSurface> {
    let (r, g, b, a) = template.base.background.rgba();
    let size = &template.base.size;
    let img = ImageSurface::create(Format::ARgb32, size.width as i32, size.height as i32)?;
    let cr = Context::new(&img)?;
    cr.set_source_rgba(r, g, b, a);
    cr.paint()?;
    let LayerStack(layers) = self;
    for layer in layers.into_iter() { layer.render(template, &cr)?; }
    Ok(img)
}
```
The canvas (cairo surface + context) is modelled as a value threaded
through the layers; each trait-object layer is modelled by its render
effect, a fallible canvas transformer.  Surface/context allocation and the
background paint are modelled by an `alloc` parameter (the image backend);
when allocation succeeds it yields the background-filled canvas of the
template's configured size. -/

/-- Drawing operations recorded on a model canvas; `paint` is the
background fill done before any layer renders. -/
inductive CanvasOp (Color : Type) where
  | paint (c : Color)
deriving DecidableEq, Repr

/-- A model canvas: the surface dimensions and the drawing operations
applied so far. -/
structure Canvas (Color : Type) where
  width : Nat
  height : Nat
  ops : List (CanvasOp Color)
deriving DecidableEq, Repr

/-- The part of `Template::base` read by `LayerStack::render`: the card
size and the background color. -/
structure TemplateBase (Color : Type) where
  width : Nat
  height : Nat
  background : Color
deriving Repr

/-- The canvas produced by a successful allocation: the template's
configured width and height, filled with the configured background color. -/
def newCanvas {Color : Type} (base : TemplateBase Color) : Canvas Color :=
  { width := base.width, height := base.height,
    ops := [CanvasOp.paint base.background] }

/-- The `for layer in layers { layer.render(template, &cr)?; }` loop:
each layer transforms the canvas, the first `Err` aborts the loop with that
error, and the final canvas is returned after the last layer. -/
def renderLoop {Color E : Type} :
    List (Canvas Color → Except E (Canvas Color)) → Canvas Color →
    Except E (Canvas Color)
  | [], img => .ok img
  | l :: rest, img =>
      match l img with
      | .error e => .error e
      | .ok img' => renderLoop rest img'

/-- `LayerStack::render`: allocate and background-fill the canvas via the
image backend, then fold the layers over it in declaration order. -/
def LayerStack.render {Color E : Type}
    (alloc : TemplateBase Color → Except E (Canvas Color))
    (base : TemplateBase Color)
    (layers : List (Canvas Color → Except E (Canvas Color))) :
    Except E (Canvas Color) :=
  match alloc base with
  | .error e => .error e
  | .ok img => renderLoop layers img

lemma renderLoop_append {Color E : Type}
    (pre rest : List (Canvas Color → Except E (Canvas Color)))
    (img : Canvas Color) :
    renderLoop (pre ++ rest) img =
      match renderLoop pre img with
      | .error e => .error e
      | .ok img' => renderLoop rest img' := by
  induction pre generalizing img with
  | nil => simp [renderLoop]
  | cons l pre' ih =>
      simp only [List.cons_append, renderLoop]
      cases l img with
      | error e => rfl
      | ok img' => exact ih img'

lemma renderLoop_error_split {Color E : Type}
    (layers : List (Canvas Color → Except E (Canvas Color)))
    (img : Canvas Color) (e : E) (h : renderLoop layers img = .error e) :
    ∃ pre l post img', layers = pre ++ l :: post ∧
      renderLoop pre img = .ok img' ∧ l img' = .error e := by
  induction layers generalizing img with
  | nil => simp [renderLoop] at h
  | cons l0 rest ih =>
      simp only [renderLoop] at h
      cases hl : l0 img with
      | error e0 =>
          rw [hl] at h
          cases h
          exact ⟨[], l0, rest, img, rfl, rfl, hl⟩
      | ok img' =>
          rw [hl] at h
          obtain ⟨pre, l, post, img'', hsplit, hpre, herr⟩ := ih img' h
          refine ⟨l0 :: pre, l, post, img'', by simp [hsplit], ?_, herr⟩
          simp [renderLoop, hl, hpre]

/-- C5: `LayerStack::render` first allocates a canvas of the template's
configured width and height filled with the configured background color,
then folds the layers over it in declaration order; when some layer is the
first to fail, the whole render aborts with exactly that layer's error and
no canvas is returned; every render error arises this way, and the final
canvas is returned only when every layer succeeds (an empty stack returns
the freshly filled canvas). -/
theorem claim_C5_layerstack_render {Color E : Type}
    (alloc : TemplateBase Color → Except E (Canvas Color))
    (base : TemplateBase Color)
    (halloc : alloc base = .ok (newCanvas base)) :
    ((newCanvas base).width = base.width ∧
     (newCanvas base).height = base.height ∧
     (newCanvas base).ops = [CanvasOp.paint base.background]) ∧
    LayerStack.render alloc base [] = .ok (newCanvas base) ∧
    (∀ pre post : List (Canvas Color → Except E (Canvas Color)),
      ∀ l : Canvas Color → Except E (Canvas Color),
      ∀ img : Canvas Color, ∀ e : E,
      renderLoop pre (newCanvas base) = .ok img → l img = .error e →
      LayerStack.render alloc base (pre ++ l :: post) = .error e) ∧
    (∀ layers : List (Canvas Color → Except E (Canvas Color)), ∀ e : E,
      LayerStack.render alloc base layers = .error e →
      ∃ pre l post img, layers = pre ++ l :: post ∧
        renderLoop pre (newCanvas base) = .ok img ∧ l img = .error e) := by
  refine ⟨⟨rfl, rfl, rfl⟩, ?_, ?_, ?_⟩
  · simp [LayerStack.render, halloc, renderLoop]
  · intro pre post l img e hpre herr
    simp only [LayerStack.render, halloc]
    rw [renderLoop_append, hpre]
    simp [renderLoop, herr]
  · intro layers e hrender
    simp only [LayerStack.render, halloc] at hrender
    exact renderLoop_error_split layers (newCanvas base) e hrender

/-- Backend allocation for the C5 witness: always succeeds with the
background-filled canvas. -/
def allocExample : TemplateBase Nat → Except Nat (Canvas Nat) :=
  fun base => .ok (newCanvas base)

/-- Template base for the C5 witness: 100 x 140 canvas, background color
coded 3. -/
def baseExample : TemplateBase Nat := { width := 100, height := 140, background := 3 }

theorem claim_C5_layerstack_render_witness :
    ((newCanvas baseExample).width = baseExample.width ∧
     (newCanvas baseExample).height = baseExample.height ∧
     (newCanvas baseExample).ops = [CanvasOp.paint baseExample.background]) ∧
    LayerStack.render allocExample baseExample [] = .ok (newCanvas baseExample) ∧
    (∀ pre post : List (Canvas Nat → Except Nat (Canvas Nat)),
      ∀ l : Canvas Nat → Except Nat (Canvas Nat),
      ∀ img : Canvas Nat, ∀ e : Nat,
      renderLoop pre (newCanvas baseExample) = .ok img → l img = .error e →
      LayerStack.render allocExample baseExample (pre ++ l :: post) = .error e) ∧
    (∀ layers : List (Canvas Nat → Except Nat (Canvas Nat)), ∀ e : Nat,
      LayerStack.render allocExample baseExample layers = .error e →
      ∃ pre l post img, layers = pre ++ l :: post ∧
        renderLoop pre (newCanvas baseExample) = .ok img ∧ l img = .error e) :=
  claim_C5_layerstack_render allocExample baseExample rfl

/-! ## Worker-count clamping

src/pipeline.rs lines 372-378:
```rust
fn check_n_workers(n_workers: NonZero<usize>) -> usize {
    let av_workers = thread::available_parallelism().map(|n| n.get()).unwrap_or(1);
    n_workers.get().clamp(1, av_workers)
}
```
src/pipeline/parallel.rs lines 44-48:
```rust
fn check_n_workers(n_workers: NonZero<usize>) -> usize {
    let av_workers = thread::available_parallelism().unwrap_or_else(|_| NonZero::new(1).unwrap());
    n_workers.min(av_workers).get()
}
```
`available_parallelism()` is modelled as an `Option Nat` parameter: `some
av` with `1 ≤ av` when the query succeeds (it returns a NonZero), `none`
when it cannot be queried. -/

/-- Rust's `usize::clamp(self, min, max)`: `min` if below, `max` if above,
otherwise `self` (the source upholds clamp's `min <= max` precondition
since `min = 1` and `max` comes from a NonZero or defaults to 1). -/
def rustClamp (x lo hi : Nat) : Nat :=
  if x < lo then lo else if hi < x then hi else x

/-- `Pipeline::check_n_workers` (src/pipeline.rs). -/
def Pipeline.checkNWorkers (nWorkers : Nat) (availableParallelism : Option Nat) :
    Nat :=
  let avWorkers := availableParallelism.getD 1
  rustClamp nWorkers 1 avWorkers

/-- `ParallelismOptions::check_n_workers` (src/pipeline/parallel.rs). -/
def ParallelismOptions.checkNWorkers (nWorkers : Nat)
    (availableParallelism : Option Nat) : Nat :=
  let avWorkers := availableParallelism.getD 1
  min nWorkers avWorkers

/-- C9: for every requested worker count n >= 1, both check_n_workers
variants return n clamped to [1, available_parallelism], which for n >= 1
is min n av: at most the available parallelism, at least 1, and exactly av
whenever av <= n; when the parallelism query fails, av is taken as 1 and
the result is 1. -/
theorem claim_C9_worker_count_clamp (n av : Nat) (hn : 1 ≤ n) (hav : 1 ≤ av) :
    Pipeline.checkNWorkers n (some av) = min n av ∧
    ParallelismOptions.checkNWorkers n (some av) = min n av ∧
    (av ≤ n → Pipeline.checkNWorkers n (some av) = av) ∧
    1 ≤ Pipeline.checkNWorkers n (some av) ∧
    Pipeline.checkNWorkers n (some av) ≤ av ∧
    Pipeline.checkNWorkers n none = 1 ∧
    ParallelismOptions.checkNWorkers n none = 1 := by
  have hmin : ParallelismOptions.checkNWorkers n (some av) = min n av := by
    simp [ParallelismOptions.checkNWorkers]
  have hclamp : Pipeline.checkNWorkers n (some av) = min n av := by
    simp only [Pipeline.checkNWorkers, rustClamp, Option.getD_some]
    split
    · omega
    · split <;> omega
  have hnone : Pipeline.checkNWorkers n none = 1 := by
    simp only [Pipeline.checkNWorkers, rustClamp, Option.getD_none]
    split
    · rfl
    · split <;> omega
  have hnone2 : ParallelismOptions.checkNWorkers n none = 1 := by
    simp only [ParallelismOptions.checkNWorkers, Option.getD_none]
    omega
  refine ⟨hclamp, hmin, ?_, ?_, ?_, hnone, hnone2⟩
  · intro hle; rw [hclamp]; omega
  · rw [hclamp]; omega
  · rw [hclamp]; omega

theorem claim_C9_worker_count_clamp_witness :
    Pipeline.checkNWorkers 1000 (some 8) = min 1000 8 ∧
    ParallelismOptions.checkNWorkers 1000 (some 8) = min 1000 8 ∧
    (8 ≤ 1000 → Pipeline.checkNWorkers 1000 (some 8) = 8) ∧
    1 ≤ Pipeline.checkNWorkers 1000 (some 8) ∧
    Pipeline.checkNWorkers 1000 (some 8) ≤ 8 ∧
    Pipeline.checkNWorkers 1000 none = 1 ∧
    ParallelismOptions.checkNWorkers 1000 none = 1 :=
  claim_C9_worker_count_clamp 1000 8 (by decide) (by decide)

/-! ## Value (src/data/value.rs)

`Value` is the tagged union {Int(i64), Float(f64), Str(String), Bool(bool),
Nil}.  The `f64` payload is modelled as an exact rational: the `as f64`
conversion of an i64 and the decimal-literal parse are computed exactly
(Rust rounds to the nearest f64; the two agree on all values the claims
evaluate), and the non-finite f64 values (inf/nan) are outside the model —
inside `eq` a parsed nan compares unequal to everything, observationally
the same as a parse failure.

The string parsers mirror Rust's `str::parse` for each target type:
`i64`: optional `+`/`-` sign, then one or more ASCII digits, value within
the i64 range; `f64` (finite decimal forms): optional sign, then
`Digits`, `Digits . Digits?` or `. Digits`, with an optional
`e|E sign? Digits` exponent; `bool`: exactly "true" or "false". -/

/-- Value of a string of ASCII decimal digits, most significant first. -/
def decDigitsVal (cs : List Char) : Nat :=
  cs.foldl (fun acc c => acc * 10 + (c.toNat - 48)) 0

/-- All characters are ASCII decimal digits. -/
def allDigits (cs : List Char) : Bool :=
  cs.all (fun c => c.isDigit)

/-- Rust `str::parse::<i64>()`: optional sign, one or more digits, and the
value must fit in i64 (Rust's per-step overflow check accepts a digit
string exactly when the final value is in range, since prefixes of a digit
string never exceed its value). -/
def parseI64 (s : String) : Option Int :=
  let core : Int → List Char → Option Int := fun sign cs =>
    if (!cs.isEmpty) && allDigits cs then
      let v : Int := sign * (decDigitsVal cs : Int)
      if -(2 ^ 63) ≤ v ∧ v ≤ 2 ^ 63 - 1 then some v else none
    else none
  match s.data with
  | '+' :: cs => core 1 cs
  | '-' :: cs => core (-1) cs
  | cs => core 1 cs

/-- Rust `str::parse::<bool>()`: exactly "true" or "false". -/
def parseBool (s : String) : Option Bool :=
  if s = "true" then some true
  else if s = "false" then some false
  else none

/-- Split a character list at the first character satisfying `p`:
the part before it, and the part after it when it occurs. -/
def splitAtChar (p : Char → Bool) : List Char → List Char × Option (List Char)
  | [] => ([], none)
  | c :: cs =>
      if p c then ([], some cs)
      else
        let r := splitAtChar p cs
        (c :: r.1, r.2)

/-- Exponent part of a decimal float literal: optional sign then one or
more digits. -/
def parseDecExp (cs : List Char) : Option Int :=
  match cs with
  | '+' :: ds =>
      if (!ds.isEmpty) && allDigits ds then some ((decDigitsVal ds : Nat) : Int)
      else none
  | '-' :: ds =>
      if (!ds.isEmpty) && allDigits ds then some (-((decDigitsVal ds : Nat) : Int))
      else none
  | ds =>
      if (!ds.isEmpty) && allDigits ds then some ((decDigitsVal ds : Nat) : Int)
      else none

/-- Mantissa of a decimal float literal: `Digits`, `Digits . Digits?` or
`. Digits`, evaluated exactly as the rational
`intpart + fracpart / 10 ^ fraclen` (built with `mkRat` so the value
computes by kernel reduction). -/
def parseMantissa (cs : List Char) : Option ℚ :=
  let r := splitAtChar (fun c => c == '.') cs
  match r.2 with
  | none =>
      if (!r.1.isEmpty) && allDigits r.1 then
        some (mkRat (decDigitsVal r.1 : Int) 1)
      else none
  | some fp =>
      if ((!r.1.isEmpty) || (!fp.isEmpty)) && allDigits r.1 && allDigits fp then
        some (mkRat
          ((decDigitsVal r.1 * 10 ^ fp.length + decDigitsVal fp : Nat) : Int)
          (10 ^ fp.length))
      else none

/-- Multiply a rational by `10 ^ e` for a signed decimal exponent. -/
def ratTimesPow10 (q : ℚ) : Int → ℚ
  | .ofNat k => mkRat (q.num * ((10 ^ k : Nat) : Int)) q.den
  | .negSucc k => mkRat q.num (q.den * 10 ^ (k + 1))

/-- Unsigned part of `str::parse::<f64>()` on finite decimal forms:
mantissa with an optional `e|E` exponent. -/
def parseF64Core (cs : List Char) : Option ℚ :=
  let r := splitAtChar (fun c => c == 'e' || c == 'E') cs
  match r.2 with
  | none => parseMantissa r.1
  | some ecs =>
      match parseMantissa r.1, parseDecExp ecs with
      | some m, some e => some (ratTimesPow10 m e)
      | _, _ => none

/-- Rust `str::parse::<f64>()` restricted to finite decimal literals,
computed exactly. -/
def parseF64 (s : String) : Option ℚ :=
  match s.data with
  | '+' :: cs => parseF64Core cs
  | '-' :: cs => (parseF64Core cs).map (fun q => mkRat (-q.num) q.den)
  | cs => parseF64Core cs

/-- `Value` (src/data/value.rs lines 7-14): the possible values a card
field can take. -/
inductive Value where
  | Int (a : Int)
  | Float (q : ℚ)
  | Str (s : String)
  | Bool (b : Bool)
  | Nil
deriving DecidableEq, Repr

/-- `impl PartialEq for Value` (src/data/value.rs lines 50-69), arm by arm:
same-variant pairs compare their payloads; Int/Float pairs compare after
converting the Int (`*a as f64`); Str against Int/Float/Bool parses the
string as the other side's type and compares, with a failed parse giving
false (`.map(|a| a == *b).unwrap_or(false)`); Nil equals only Nil; every
remaining cross-variant pair is false. -/
def valueEq : Value → Value → Bool
  | .Int a, .Int b => decide (a = b)
  | .Int a, .Float b => decide ((a : ℚ) = b)
  | .Float a, .Int b => decide (a = (b : ℚ))
  | .Float a, .Float b => decide (a = b)
  | .Str a, .Str b => decide (a = b)
  | .Str a, .Int b => ((parseI64 a).map fun x => decide (x = b)).getD false
  | .Str a, .Float b => ((parseF64 a).map fun x => decide (x = b)).getD false
  | .Str a, .Bool b => ((parseBool a).map fun x => decide (x = b)).getD false
  | .Int a, .Str b => ((parseI64 b).map fun x => decide (a = x)).getD false
  | .Float a, .Str b => ((parseF64 b).map fun x => decide (a = x)).getD false
  | .Bool a, .Str b => ((parseBool b).map fun x => decide (a = x)).getD false
  | .Bool a, .Bool b => decide (a = b)
  | .Nil, .Nil => true
  | _, _ => false

lemma optDecide_symm {α : Type} [DecidableEq α] (o : Option α) (b : α) :
    (o.map fun x => decide (x = b)).getD false =
    (o.map fun x => decide (b = x)).getD false := by
  cases o with
  | none => rfl
  | some x =>
      show decide (x = b) = decide (b = x)
      exact decide_eq_decide.mpr ⟨Eq.symm, Eq.symm⟩

lemma parse_arm_eq {α : Type} [DecidableEq α] (o : Option α) (n : α) :
    (o.map fun x => decide (x = n)).getD false = decide (o = some n) := by
  cases o with
  | none => simp
  | some x => simp

lemma parse_arm_eq2 {α : Type} [DecidableEq α] (o : Option α) (n : α) :
    (o.map fun x => decide (n = x)).getD false = decide (o = some n) := by
  cases o with
  | none => simp
  | some x => simp [eq_comm]

lemma valueEq_symm (a b : Value) : valueEq a b = valueEq b a := by
  cases a <;> cases b <;>
    first
    | rfl
    | exact decide_eq_decide.mpr ⟨Eq.symm, Eq.symm⟩
    | exact optDecide_symm _ _
    | exact (optDecide_symm _ _).symm

/-- C8: Value equality coerces across variants: `Int(5) == Str("5")` holds;
a `Str` equals an `Int` exactly when the string parses as that i64, and
likewise for `Float` and `Bool` via parsing; `Int` and `Float` compare
equal after converting the `Int` to float; `Str("abc") == Int(5)` is
false; and every other cross-variant pair — `Bool` vs `Int`, `Bool` vs
`Float`, and `Nil` vs any non-`Nil` value — compares unequal. -/
theorem claim_C8_value_cross_coercion :
    valueEq (.Int 5) (.Str "5") = true ∧
    valueEq (.Str "5") (.Int 5) = true ∧
    (∀ s : String, ∀ n : Int,
      valueEq (.Str s) (.Int n) = decide (parseI64 s = some n) ∧
      valueEq (.Int n) (.Str s) = decide (parseI64 s = some n)) ∧
    (∀ s : String, ∀ q : ℚ,
      valueEq (.Str s) (.Float q) = decide (parseF64 s = some q) ∧
      valueEq (.Float q) (.Str s) = decide (parseF64 s = some q)) ∧
    (∀ s : String, ∀ b : Bool,
      valueEq (.Str s) (.Bool b) = decide (parseBool s = some b) ∧
      valueEq (.Bool b) (.Str s) = decide (parseBool s = some b)) ∧
    (∀ a : Int, ∀ q : ℚ,
      valueEq (.Int a) (.Float q) = decide ((a : ℚ) = q) ∧
      valueEq (.Float q) (.Int a) = decide (q = (a : ℚ))) ∧
    valueEq (.Str "abc") (.Int 5) = false ∧
    (∀ n : Int, ∀ b : Bool,
      valueEq (.Bool b) (.Int n) = false ∧ valueEq (.Int n) (.Bool b) = false) ∧
    (∀ q : ℚ, ∀ b : Bool,
      valueEq (.Bool b) (.Float q) = false ∧
      valueEq (.Float q) (.Bool b) = false) ∧
    (∀ v : Value,
      valueEq .Nil v = decide (v = .Nil) ∧
      valueEq v .Nil = decide (v = .Nil)) := by
  refine ⟨by decide, by decide, ?_, ?_, ?_, ?_, by decide, ?_, ?_, ?_⟩
  · intro s n; exact ⟨parse_arm_eq _ _, parse_arm_eq2 _ _⟩
  · intro s q; exact ⟨parse_arm_eq _ _, parse_arm_eq2 _ _⟩
  · intro s b; exact ⟨parse_arm_eq _ _, parse_arm_eq2 _ _⟩
  · intro a q; exact ⟨rfl, rfl⟩
  · intro n b; exact ⟨rfl, rfl⟩
  · intro q b; exact ⟨rfl, rfl⟩
  · intro v; cases v <;> simp [valueEq]

/-- C10: equality on Value is symmetric but not transitive, hence not an
equivalence relation: `Str("5.0") == Float(5.0)` and
`Float(5.0) == Int(5)` both hold, yet `Str("5.0") == Int(5)` is false
because "5.0" does not parse as an i64. -/
theorem claim_C10_value_eq_symm_not_trans :
    (∀ a b : Value, valueEq a b = valueEq b a) ∧
    valueEq (.Str "5.0") (.Float 5) = true ∧
    valueEq (.Float 5) (.Int 5) = true ∧
    valueEq (.Str "5.0") (.Int 5) = false ∧
    ¬ (∀ a b c : Value, valueEq a b = true → valueEq b c = true →
        valueEq a c = true) := by
  refine ⟨valueEq_symm, by decide, by decide, by decide, ?_⟩
  intro htrans
  have h := htrans (.Str "5.0") (.Float 5) (.Int 5) (by decide) (by decide)
  exact absurd h (by decide)

end Cartomata
